import Mathlib

/-!
# Verification of the calendly availability engine

Shallow embedding of the availability engine of the `calendly` repository
(`src/modules/calendar/calendar_controller.rs`, `calendar_model.rs`,
`calendar_schema.rs`) and proofs about it.

Modelling conventions:

* `chrono::NaiveTime` values are represented as seconds after midnight
  (`Nat`, `0 ≤ t < 86400`).  All times handled by the engine are parsed from
  `"%H:%M"` strings (multiples of 60) or are the fallback constants
  `00:00:00 = 0` and `23:59:59 = 86399` used by the Rust code on parse
  failure.  `NaiveTime + Duration::minutes(m)` wraps around midnight, which
  is modelled exactly by `addMin` (arithmetic modulo 86400).
* `chrono::NaiveDate` values are represented as the number of days since
  1970-01-01 (`Int`); `1970-01-01` was a Thursday, which fixes `weekdayName`.
  This matches `chrono`'s proleptic Gregorian calendar on the whole range the
  engine can receive.
* `bson::DateTime` values are milliseconds since the Unix epoch (`Int`);
  `DateTime::from_timestamp_millis(..).date_naive()` is floor division by
  86 400 000 (`millisToDay`).
* The formatted output strings `"%Y-%m-%d"` / `"%H:%M"` are zero padded, so
  comparing them lexically (as `check_availability`'s `sort_by` does) agrees
  with comparing the underlying day / second numbers; emitted records
  therefore keep the numeric values.
* The inner packing `while` loop of `process_availability_rule` can fail to
  terminate (wrap-around past midnight), so it is embedded with explicit
  fuel: `none` means the fuel ran out, i.e. the Rust loop has not exited
  within that many iterations; a value that is `some l` for all large enough
  fuel is the value the Rust code returns.
* `parse_from_str` with `"%H:%M"` / `"%Y-%m-%d"` and
  `DateTime::parse_rfc3339_str` are modelled on the zero-padded forms
  `HH:MM`, `YYYY-MM-DD` and `YYYY-MM-DDTHH:MM:SSZ`; the engine's behaviour
  depends only on the parse result, never on other properties of the string.
-/

namespace Calendly

/-- Value of a decimal digit character, `none` if not a digit. -/
def digitVal (c : Char) : Option Nat :=
  if c.isDigit then some (c.toNat - 48) else none

/-- Parse a zero-padded `"HH:MM"` wall-clock string to seconds after
midnight, as `NaiveTime::parse_from_str(s, "%H:%M")` does: hour `0–23`,
minute `0–59`, whole string consumed. -/
def parseHM (s : String) : Option Nat :=
  match s.data with
  | [h1, h2, ':', m1, m2] => do
      let a ← digitVal h1
      let b ← digitVal h2
      let c ← digitVal m1
      let d ← digitVal m2
      let hour := 10 * a + b
      let minute := 10 * c + d
      if hour ≤ 23 ∧ minute ≤ 59 then
        some (3600 * hour + 60 * minute)
      else
        none
  | _ => none

/-- Number of days from 1970-01-01 (the Unix epoch) to the civil date
`y-m-d`, proleptic Gregorian calendar (standard `days_from_civil`
computation, as used by `chrono::NaiveDate`). -/
def daysFromCivil (y m d : Int) : Int :=
  let yAdj := if m ≤ 2 then y - 1 else y
  let era := Int.fdiv yAdj 400
  let yoe := yAdj - era * 400
  let mp := (m + 9) % 12
  let doy := Int.fdiv (153 * mp + 2) 5 + d - 1
  let doe := yoe * 365 + Int.fdiv yoe 4 - Int.fdiv yoe 100 + doy
  era * 146097 + doe - 719468

/-- Whether `y` is a Gregorian leap year. -/
def isLeapYear (y : Int) : Bool :=
  (y % 4 == 0 && y % 100 != 0) || y % 400 == 0

/-- Number of days in month `m` of year `y` (`m ∈ [1,12]`). -/
def daysInMonth (y m : Int) : Int :=
  if m = 2 then (if isLeapYear y then 29 else 28)
  else if m = 4 ∨ m = 6 ∨ m = 9 ∨ m = 11 then 30
  else 31

/-- Parse a `"YYYY-MM-DD"` date string to days since the epoch, as
`NaiveDate::parse_from_str(s, "%Y-%m-%d")` does (month and day validated,
whole string consumed). -/
def parseDate (s : String) : Option Int :=
  match s.data with
  | [y1, y2, y3, y4, '-', m1, m2, '-', d1, d2] => do
      let a ← digitVal y1
      let b ← digitVal y2
      let c ← digitVal y3
      let d ← digitVal y4
      let e ← digitVal m1
      let f ← digitVal m2
      let g ← digitVal d1
      let h ← digitVal d2
      let year : Int := 1000 * a + 100 * b + 10 * c + d
      let month : Int := 10 * e + f
      let day : Int := 10 * g + h
      if 1 ≤ month ∧ month ≤ 12 ∧ 1 ≤ day ∧ day ≤ daysInMonth year month then
        some (daysFromCivil year month day)
      else
        none
  | _ => none

/-- Parse a `"YYYY-MM-DDTHH:MM:SSZ"` RFC 3339 timestamp to milliseconds
since the epoch, as `bson::DateTime::parse_rfc3339_str` does on that form. -/
def parseRfc3339 (s : String) : Option Int :=
  match s.data with
  | [y1, y2, y3, y4, '-', mo1, mo2, '-', d1, d2, 'T',
     h1, h2, ':', mi1, mi2, ':', s1, s2, 'Z'] => do
      let dayPart ← parseDate ⟨[y1, y2, y3, y4, '-', mo1, mo2, '-', d1, d2]⟩
      let secPart ← parseHM ⟨[h1, h2, ':', mi1, mi2]⟩
      let a ← digitVal s1
      let b ← digitVal s2
      let sec := 10 * a + b
      if sec ≤ 59 then
        some ((dayPart * 86400 + (secPart : Int) + (sec : Int)) * 1000)
      else
        none
  | _ => none

/-- Lowercase English weekday name of epoch day `d`, as
`NaiveDate::format("%A").to_string().to_lowercase()` produces it.
Day 0 (1970-01-01) was a Thursday. -/
def weekdayName (d : Int) : String :=
  match (d % 7).toNat with
  | 0 => "thursday"
  | 1 => "friday"
  | 2 => "saturday"
  | 3 => "sunday"
  | 4 => "monday"
  | 5 => "tuesday"
  | _ => "wednesday"

/-- `DateTime::from_timestamp_millis(ms).date_naive()`: the epoch day
containing the given epoch millisecond (floor division). -/
def millisToDay (ms : Int) : Int :=
  Int.fdiv ms 86400000

/-- `NaiveTime + Duration::minutes(m)`: add `m` minutes to a time of day,
wrapping around midnight (both directions), as `chrono` documents. -/
def addMin (t : Nat) (m : Int) : Nat :=
  (((t : Int) + 60 * m) % 86400).toNat

/-- `TimeSlot` of `calendar_model.rs`: one working-hours window, as raw
`"HH:mm"` strings (`end` is a Lean keyword, hence `end_`). -/
structure TimeSlot where
  start : String
  end_ : String
deriving Repr, DecidableEq

/-- `BufferTime` of `calendar_model.rs` (minutes, `i32`). -/
structure BufferTime where
  before : Int
  after : Int
deriving Repr, DecidableEq

/-- `AvailabilitySlot` of `calendar_model.rs`: a weekday slot template. -/
structure AvailabilitySlot where
  day_of_week : String
  start_time : String
  end_time : String
  is_available : Bool
deriving Repr, DecidableEq

/-- `AvailabilityRule` of `calendar_model.rs`; the `bson::DateTime` fields
are epoch milliseconds. -/
structure AvailabilityRule where
  start_date : Int
  end_date : Option Int
  is_recurring : Bool
  recurrence_pattern : Option String
  slots : List AvailabilitySlot
deriving Repr, DecidableEq

/-- The part of `CalendarSettings` the availability engine reads: the
weekday-keyed working hours and the buffer policy.  The `HashMap` is
modelled as an association list with `lookup` (keys are unique in the
source map); the remaining fields (`timezone`, display formats, ids,
timestamps) are never consulted by the verified operations. -/
structure CalendarSettings where
  working_hours : List (String × List TimeSlot)
  buffer_time : BufferTime
deriving Repr, DecidableEq

/-- The part of `Availability` the engine reads: the rule list (ids and
timestamps are never consulted by the verified operations). -/
structure Availability where
  rules : List AvailabilityRule
deriving Repr, DecidableEq

/-- `AvailableTimeSlot` of `calendar_schema.rs`.  The Rust struct holds the
`"%Y-%m-%d"` / `"%H:%M"` formatted strings; since those zero-padded formats
compare lexically exactly as the underlying numbers do, the record keeps
the epoch day and the seconds-after-midnight values they format. -/
structure AvailableTimeSlot where
  date : Int
  start_time : Nat
  end_time : Nat
deriving Repr, DecidableEq

/-- `AvailabilityRule::new` of `calendar_model.rs`: parses the date
string(s) as RFC 3339 and otherwise stores the fields unchanged; no
cross-field validation is performed. -/
def AvailabilityRule.new (start_date_str : String) (end_date_str : Option String)
    (is_recurring : Bool) (recurrence_pattern : Option String)
    (slots : List AvailabilitySlot) : Except String AvailabilityRule :=
  match parseRfc3339 start_date_str with
  | none => Except.error ("Invalid start date")
  | some sd =>
    match end_date_str with
    | some es =>
      match parseRfc3339 es with
      | none => Except.error ("Invalid end date")
      | some ed => Except.ok ⟨sd, some ed, is_recurring, recurrence_pattern, slots⟩
    | none => Except.ok ⟨sd, none, is_recurring, recurrence_pattern, slots⟩

/-- The inner packing `while` loop of `process_availability_rule`
(`calendar_controller.rs:312-328`): starting from `cursor`, while
`cursor + total ≤ slot_end` emit `(cursor + before, cursor + before + dur)`
and advance the cursor past the after-buffer.  All time additions wrap
around midnight exactly as `NaiveTime + Duration` does.  `fuel` bounds the
number of iterations; `none` means the loop has not exited within `fuel`
iterations (the Rust loop genuinely diverges on some inputs). -/
def packWindow (slotEnd : Nat) (dur before after total : Int) :
    Nat → Nat → Option (List (Nat × Nat))
  | 0, _ => none
  | fuel + 1, cursor =>
    if addMin cursor total ≤ slotEnd then
      let actualStart := addMin cursor before
      let actualEnd := addMin actualStart dur
      match packWindow slotEnd dur before after total fuel (addMin actualEnd after) with
      | some rest => some ((actualStart, actualEnd) :: rest)
      | none => none
    else
      some []

/-- Parsed start of a slot template window: parse failure falls back to
`00:00:00`, as `unwrap_or_else` does at `calendar_controller.rs:306-307`. -/
def slotStartParsed (slot : AvailabilitySlot) : Nat :=
  (parseHM slot.start_time).getD 0

/-- Parsed end of a slot template window: parse failure falls back to
`23:59:59`, as `unwrap_or_else` does at `calendar_controller.rs:308-309`. -/
def slotEndParsed (slot : AvailabilitySlot) : Nat :=
  (parseHM slot.end_time).getD 86399

/-- One day of the generator: iterate the rule's slot templates in order,
skip the ones whose weekday does not match or that are unavailable, and
pack each remaining window (`calendar_controller.rs:300-329`). -/
def processDay (fuel : Nat) (day : Int) (dur : Int) (buffer : BufferTime) :
    List AvailabilitySlot → Option (List AvailableTimeSlot)
  | [] => some []
  | slot :: rest =>
    if slot.day_of_week = weekdayName day ∧ slot.is_available = true then
      let total := dur + buffer.before + buffer.after
      match packWindow (slotEndParsed slot) dur buffer.before buffer.after total
              fuel (slotStartParsed slot),
            processDay fuel day dur buffer rest with
      | some ws, some tail =>
          some (ws.map (fun p => ⟨day, p.1, p.2⟩) ++ tail)
      | _, _ => none
    else
      processDay fuel day dur buffer rest

/-- The consecutive epoch days from `d` to `e` inclusive (the day loop of
`process_availability_rule`, which steps with `succ_opt`). -/
def dayRange (d e : Int) : List Int :=
  (List.range (e + 1 - d).toNat).map (fun (i : Nat) => d + (i : Int))

/-- Generator day loop: concatenate the per-day emissions in day order. -/
def processRuleDays (fuel : Nat) (rule : AvailabilityRule) (dur : Int)
    (buffer : BufferTime) : List Int → Option (List AvailableTimeSlot)
  | [] => some []
  | day :: days =>
    match processDay fuel day dur buffer rule.slots,
          processRuleDays fuel rule dur buffer days with
    | some a, some b => some (a ++ b)
    | _, _ => none

/-- `CalendarController::process_availability_rule`
(`calendar_controller.rs:279-336`): convert the query range endpoints to
calendar dates and expand the rule's slot templates over every day of the
range.  The rule's own `start_date`/`end_date` are not consulted here. -/
def processAvailabilityRule (fuel : Nat) (rule : AvailabilityRule)
    (start_date end_date : Int) (duration : Int) (buffer_time : BufferTime) :
    Option (List AvailableTimeSlot) :=
  processRuleDays fuel rule duration buffer_time
    (dayRange (millisToDay start_date) (millisToDay end_date))

/-- The comparator of `check_availability`'s final `sort_by`
(`calendar_controller.rs:270-272`): lexical on `(date, start_time)`
(lexical string comparison of the zero-padded formats equals numeric
comparison). -/
def slotLEb (a b : AvailableTimeSlot) : Bool :=
  a.date < b.date || (a.date = b.date && a.start_time ≤ b.start_time)

/-- Insert into a list sorted by `slotLEb` (model of the stable sort). -/
def insertSlot (a : AvailableTimeSlot) : List AvailableTimeSlot → List AvailableTimeSlot
  | [] => [a]
  | b :: l => if slotLEb a b then a :: b :: l else b :: insertSlot a l

/-- Sort a slot list by `(date, start_time)` (insertion sort; same sorted
result as `Vec::sort_by` with the comparator above). -/
def sortSlots : List AvailableTimeSlot → List AvailableTimeSlot
  | [] => []
  | a :: l => insertSlot a (sortSlots l)

/-- The accumulation loop of `check_availability`
(`calendar_controller.rs:254-267`): expand every rule independently and
append the results in rule order. -/
def collectRules (fuel : Nat) (start_date end_date : Int) (duration : Int)
    (buffer_time : BufferTime) : List AvailabilityRule → Option (List AvailableTimeSlot)
  | [] => some []
  | r :: rs =>
    match processAvailabilityRule fuel r start_date end_date duration buffer_time,
          collectRules fuel start_date end_date duration buffer_time rs with
    | some a, some b => some (a ++ b)
    | _, _ => none

/-- Slot-generation core of `CalendarController::check_availability`
(`calendar_controller.rs:253-272`): expand every rule independently over
the range, concatenate, then sort by `(date, start_time)`. -/
def checkAvailability (fuel : Nat) (rules : List AvailabilityRule)
    (start_date end_date : Int) (duration : Int) (buffer_time : BufferTime) :
    Option (List AvailableTimeSlot) :=
  (collectRules fuel start_date end_date duration buffer_time rules).map sortSlots

/-- `CalendarController::is_slot_available_in_rule`
(`calendar_controller.rs:626-669`): the proposed date (parse failure falls
back to the epoch, `NaiveDateTime::default()`) must lie in
`[start_date, end_date]`, where a missing `end_date` is `NaiveDateTime::MAX`
(no upper bound, regardless of `is_recurring`); then some slot template must
match the weekday, be available, and contain the proposed window — template
times must parse (`map(..).unwrap_or(false)`), proposed times fall back to
`00:00:00` / `23:59:59`. -/
def is_slot_available_in_rule (rule : AvailabilityRule)
    (date start_time end_time : String) : Bool :=
  let slotDay : Int := (parseDate date).getD 0
  let ruleStart := millisToDay rule.start_date
  let withinUpper :=
    match rule.end_date with
    | some m => slotDay ≤ millisToDay m
    | none => true
  if slotDay < ruleStart || !withinUpper then
    false
  else
    let dow := weekdayName slotDay
    let slotStart := (parseHM start_time).getD 0
    let slotEnd := (parseHM end_time).getD 86399
    rule.slots.any (fun slot =>
      slot.day_of_week == dow &&
      slot.is_available &&
      (match parseHM slot.start_time with
       | some t => decide (t ≤ slotStart)
       | none => false) &&
      (match parseHM slot.end_time with
       | some t => decide (slotEnd ≤ t)
       | none => false))

/-- The rule stage of the conflict checker
(`calendar_controller.rs:613-616`): some rule accepts the proposed slot. -/
def ruleStagePasses (availability : Availability)
    (date start_time end_time : String) : Bool :=
  availability.rules.any (fun rule =>
    is_slot_available_in_rule rule date start_time end_time)

/-- Weekday name of a `"YYYY-MM-DD"` string as `is_slot_available` computes
it (`calendar_controller.rs:579-582`): parse failure falls back to the
empty string (`unwrap_or_default`). -/
def dayOfWeekOfDateStr (date : String) : String :=
  match parseDate date with
  | some d => weekdayName d
  | none => ""

/-- `CalendarController::is_slot_available`
(`calendar_controller.rs:569-624`): working-hours stage then rule stage,
short-circuiting with one conflict string on the first failure.  The
returned pair is `(is_available, conflicts)`. -/
def is_slot_available (date start_time end_time : String)
    (settings : CalendarSettings) (availability : Availability) :
    Bool × List String :=
  let dow := dayOfWeekOfDateStr date
  match settings.working_hours.lookup dow with
  | none => (false, ["No working hours set for this day"])
  | some working_hours =>
    if working_hours.isEmpty then
      (false, ["No working hours set for this day"])
    else
      let slotStart := (parseHM start_time).getD 0
      let slotEnd := (parseHM end_time).getD 86399
      let isWithinWorkingHours := working_hours.any (fun wh =>
        (parseHM wh.start).getD 0 ≤ slotStart &&
        slotEnd ≤ (parseHM wh.end_).getD 86399)
      if !isWithinWorkingHours then
        (false, ["Time slot is outside working hours"])
      else if ruleStagePasses availability date start_time end_time then
        (true, [])
      else
        (false, ["Time slot is not available in your schedule"])

/-- Modelled from the spec (§4.1 rule selection, evaluated per day): a
rule's date scope covers day `d` iff the bounded check
`start_date ≤ d ∧ d ≤ end_date` holds, or the rule is open-ended
(`end_date = None`) *and* recurring and `start_date ≤ d`.  This definition
follows the spec's words, for comparison against the code's coverage
check. -/
def specScopeCoversDay (rule : AvailabilityRule) (d : Int) : Bool :=
  match rule.end_date with
  | some e => millisToDay rule.start_date ≤ d && d ≤ millisToDay e
  | none => rule.is_recurring && millisToDay rule.start_date ≤ d

/-!  ## Theorems -/

/-- **C1**: greedy buffer-aware packing of a single weekday window.  For the
window 09:00–10:00 (on Monday 2024-06-10, epoch day 19884, queried for that
one day) with `duration = 30`: with buffer `{0,0}` exactly the two slots
09:00–09:30 (32400–34200 s) and 09:30–10:00 (34200–36000 s) are emitted;
with buffer `{5,5}` exactly the one slot 09:05–09:35 (32700–34500 s) is
emitted — the cursor advances by `duration + before + after` each
iteration and the 09:40–10:20 remainder is dropped. -/
theorem C1_generator_examples :
    processAvailabilityRule 8
        ⟨1717977600000, some 1717977600000, true, none,
          [⟨"monday", "09:00", "10:00", true⟩]⟩
        1717977600000 1717977600000 30 ⟨0, 0⟩ =
      some [⟨19884, 32400, 34200⟩, ⟨19884, 34200, 36000⟩] ∧
    processAvailabilityRule 8
        ⟨1717977600000, some 1717977600000, true, none,
          [⟨"monday", "09:00", "10:00", true⟩]⟩
        1717977600000 1717977600000 30 ⟨5, 5⟩ =
      some [⟨19884, 32700, 34500⟩] := by
  exact ⟨rfl, rfl⟩

/-- **C8 counterexample**: constructing an `AvailabilityRule` with
`end_date` absent and `is_recurring = false` *succeeds* (no validation
error), contradicting the claim that unbounded non-recurring rules are
rejected at construction. -/
theorem C8_counterexample :
    AvailabilityRule.new "2024-01-01T00:00:00Z" none false none [] =
      Except.ok ⟨1704067200000, none, false, none, []⟩ := by
  rfl

/-- **C8 amended**: `AvailabilityRule::new` succeeds exactly when the date
strings parse as RFC 3339; `is_recurring` and `end_date` presence are not
cross-validated, so unbounded non-recurring rules are accepted. -/
theorem C8_amended_construction (sd : String) (ed : Option String)
    (ir : Bool) (rp : Option String) (slots : List AvailabilitySlot) :
    (∃ r, AvailabilityRule.new sd ed ir rp slots = Except.ok r) ↔
      ((parseRfc3339 sd).isSome ∧ ∀ e ∈ ed, (parseRfc3339 e).isSome) := by
  unfold AvailabilityRule.new
  cases hsd : parseRfc3339 sd with
  | none => simp [hsd]
  | some v =>
    cases ed with
    | none => simp
    | some es =>
      cases hes : parseRfc3339 es with
      | none => simp [hes]
      | some w => simp [hes]

/-- **C10**: a proposed slot whose date string does not parse makes the
conflict checker fall back to the empty-string weekday; provided
`working_hours` has no empty-string key, the result is
`is_available = false` with the single conflict
"No working hours set for this day" (no error is raised). -/
theorem C10_bad_date_fallback (date s e : String)
    (settings : CalendarSettings) (availability : Availability)
    (hdate : parseDate date = none)
    (hkey : settings.working_hours.lookup "" = none) :
    is_slot_available date s e settings availability =
      (false, ["No working hours set for this day"]) := by
  simp only [is_slot_available, dayOfWeekOfDateStr, hdate, hkey]

/-- Witness for C10 at the concrete unparseable date `"not-a-date"` and
settings with no empty-string working-hours key. -/
theorem C10_bad_date_fallback_witness :
    is_slot_available "not-a-date" "09:00" "09:30"
        ⟨[("monday", [⟨"09:00", "17:00"⟩])], ⟨0, 0⟩⟩ ⟨[]⟩ =
      (false, ["No working hours set for this day"]) :=
  C10_bad_date_fallback "not-a-date" "09:00" "09:30"
    ⟨[("monday", [⟨"09:00", "17:00"⟩])], ⟨0, 0⟩⟩ ⟨[]⟩ (by decide) (by decide)

/-- The sort order `slotLEb` is total. -/
theorem slotLEb_total (a b : AvailableTimeSlot) :
    slotLEb a b = true ∨ slotLEb b a = true := by
  simp only [slotLEb, Bool.or_eq_true, Bool.and_eq_true, decide_eq_true_eq]
  omega

/-- The sort order `slotLEb` is transitive. -/
theorem slotLEb_trans {a b c : AvailableTimeSlot} :
    slotLEb a b = true → slotLEb b c = true → slotLEb a c = true := by
  simp only [slotLEb, Bool.or_eq_true, Bool.and_eq_true, decide_eq_true_eq]
  omega

/-- Membership in an insertion. -/
theorem mem_insertSlot (a x : AvailableTimeSlot) :
    ∀ l, x ∈ insertSlot a l ↔ x = a ∨ x ∈ l := by
  intro l
  induction l with
  | nil => simp [insertSlot]
  | cons b l ih =>
    simp only [insertSlot]
    split_ifs with h
    · simp only [List.mem_cons]
    · simp only [List.mem_cons, ih]
      tauto

/-- Inserting into a `slotLEb`-sorted list keeps it sorted. -/
theorem pairwise_insertSlot (a : AvailableTimeSlot) :
    ∀ l, l.Pairwise (fun x y => slotLEb x y = true) →
      (insertSlot a l).Pairwise (fun x y => slotLEb x y = true) := by
  intro l
  induction l with
  | nil => intro _; simp [insertSlot]
  | cons b l ih =>
    intro hp
    rw [List.pairwise_cons] at hp
    obtain ⟨hb, hl⟩ := hp
    simp only [insertSlot]
    split_ifs with h
    · rw [List.pairwise_cons]
      refine ⟨?_, List.pairwise_cons.mpr ⟨hb, hl⟩⟩
      intro x hx
      rcases List.mem_cons.mp hx with rfl | hx
      · exact h
      · exact slotLEb_trans h (hb x hx)
    · rw [List.pairwise_cons]
      refine ⟨?_, ih hl⟩
      intro x hx
      rcases (mem_insertSlot a x l).mp hx with rfl | hx
      · rcases slotLEb_total x b with hxb | hbx
        · exact absurd hxb h
        · exact hbx
      · exact hb x hx

/-- `sortSlots` always produces a `(date, start_time)`-sorted list. -/
theorem pairwise_sortSlots :
    ∀ l, (sortSlots l).Pairwise (fun x y => slotLEb x y = true) := by
  intro l
  induction l with
  | nil => simp [sortSlots]
  | cons a l ih => exact pairwise_insertSlot a (sortSlots l) ih

/-- **C4**: the full slot list returned by the availability-generation
operation is sorted ascending by `(date, start_time)`, for every input on
which the generation terminates. -/
theorem C4_sorted (fuel : Nat) (rules : List AvailabilityRule)
    (ms1 ms2 dur : Int) (buffer : BufferTime) (l : List AvailableTimeSlot)
    (h : checkAvailability fuel rules ms1 ms2 dur buffer = some l) :
    l.Pairwise (fun a b => slotLEb a b = true) := by
  unfold checkAvailability at h
  cases hc : collectRules fuel ms1 ms2 dur buffer rules with
  | none => rw [hc] at h; cases h
  | some m =>
    rw [hc] at h
    simp only [Option.map_some', Option.some.injEq] at h
    rw [← h]
    exact pairwise_sortSlots m

/-- Witness for C4 on a concrete run (the C1 input). -/
theorem C4_sorted_witness :
    ([⟨19884, 32400, 34200⟩, ⟨19884, 34200, 36000⟩] :
        List AvailableTimeSlot).Pairwise (fun a b => slotLEb a b = true) :=
  C4_sorted 8
    [⟨1717977600000, some 1717977600000, true, none,
        [⟨"monday", "09:00", "10:00", true⟩]⟩]
    1717977600000 1717977600000 30 ⟨0, 0⟩
    [⟨19884, 32400, 34200⟩, ⟨19884, 34200, 36000⟩] rfl

/-- **C2 counterexample**: two parts, each falsifying one conjunct of the
claim at a concrete input.  (1) A rule whose date scope is the single day
2024-06-10 (`start_date = end_date`, epoch day 19884), queried over
2024-06-10…2024-06-17, also emits a slot dated 2024-06-17 (epoch day
19891): the generator never re-checks the emitting rule's date scope per
day.  (2) For the template window 23:00–23:45 with `duration = 44`, the
packing cursor wraps past midnight and the run (which terminates) emits
slots ending before 23:00, i.e. outside the template window. -/
theorem C2_counterexample :
    (processAvailabilityRule 10
        ⟨1717977600000, some 1717977600000, false, none,
          [⟨"monday", "09:00", "09:30", true⟩]⟩
        1717977600000 1718582400000 30 ⟨0, 0⟩ =
      some [⟨19884, 32400, 34200⟩, ⟨19891, 32400, 34200⟩] ∧
      specScopeCoversDay
        ⟨1717977600000, some 1717977600000, false, none,
          [⟨"monday", "09:00", "09:30", true⟩]⟩ 19891 = false) ∧
    (match processAvailabilityRule 64
        ⟨1717977600000, some 1717977600000, true, none,
          [⟨"monday", "23:00", "23:45", true⟩]⟩
        1717977600000 1717977600000 44 ⟨0, 0⟩ with
     | some l => l.any (fun t => decide (t.end_time < 82800))
     | none => false) = true := by
  exact ⟨⟨rfl, rfl⟩, rfl⟩

/-- `addMin` is plain addition when no midnight wrap occurs. -/
theorem addMin_no_wrap {t : Nat} {m : Int} (hm : 0 ≤ m)
    (h : (t : Int) + 60 * m < 86400) : (addMin t m : Int) = t + 60 * m := by
  unfold addMin; omega

/-- Packing-loop invariant: provided duration and buffers are nonnegative
and `slot_end + 60*total < 24h` (so no guard check can wrap past
midnight), every pair emitted from `cursor ≤ slot_end` starts at or after
the cursor, has length exactly `duration`, and ends by `slot_end`. -/
theorem packWindow_mem {dur before after total : Int} {slotEnd : Nat}
    (hd : 0 ≤ dur) (hb : 0 ≤ before) (ha : 0 ≤ after)
    (ht : total = dur + before + after)
    (hbound : (slotEnd : Int) + 60 * total < 86400) :
    ∀ (fuel : Nat) (cursor : Nat) (l : List (Nat × Nat)), (cursor : Int) ≤ (slotEnd : Int) →
      packWindow slotEnd dur before after total fuel cursor = some l →
      ∀ p ∈ l, cursor ≤ p.1 ∧ (p.2 : Int) = (p.1 : Int) + 60 * dur ∧ p.2 ≤ slotEnd := by
  intro fuel
  induction fuel with
  | zero => intro c l hc h; cases h
  | succ n ih =>
    intro c l hc h
    by_cases hguard : addMin c total ≤ slotEnd
    · have hcw : (c : Int) + 60 * total < 86400 := by omega
      have e_tot : (addMin c total : Int) = c + 60 * total := addMin_no_wrap (by omega) hcw
      have e_b : (addMin c before : Int) = c + 60 * before := addMin_no_wrap hb (by omega)
      have e_d : (addMin (addMin c before) dur : Int) =
          c + 60 * before + 60 * dur := by
        rw [addMin_no_wrap hd (by omega), e_b]
      have e_a : (addMin (addMin (addMin c before) dur) after : Int) =
          c + 60 * total := by
        rw [addMin_no_wrap ha (by omega), e_d]
        omega
      rw [show packWindow slotEnd dur before after total (n + 1) c =
          match packWindow slotEnd dur before after total n
              (addMin (addMin (addMin c before) dur) after) with
          | some rest => some ((addMin c before, addMin (addMin c before) dur) :: rest)
          | none => none from by simp [packWindow, if_pos hguard]] at h
      cases hrec : packWindow slotEnd dur before after total n
          (addMin (addMin (addMin c before) dur) after) with
      | none => rw [hrec] at h; cases h
      | some rest =>
        rw [hrec] at h
        injection h with h
        subst h
        intro p hp
        rcases List.mem_cons.mp hp with rfl | hp
        · exact ⟨by omega, by rw [e_d, e_b], by omega⟩
        · have hnext : ((addMin (addMin (addMin c before) dur) after : Nat) : Int) ≤
              (slotEnd : Int) := by omega
          have := ih _ rest hnext hrec p hp
          exact ⟨by omega, this.2.1, this.2.2⟩
    · rw [show packWindow slotEnd dur before after total (n + 1) c = some [] from by
        simp [packWindow, if_neg hguard]] at h
      injection h with h
      subst h
      intro p hp
      cases hp

/-- Per-day generator containment: under the no-wrap bound, every emitted
record carries the processed day and lies inside the window of a matching,
available template of the list. -/
theorem processDay_mem {dur : Int} {buffer : BufferTime}
    (hd : 0 ≤ dur) (hb : 0 ≤ buffer.before) (ha : 0 ≤ buffer.after) :
    ∀ (fuel : Nat) (day : Int) (slots : List AvailabilitySlot)
      (l : List AvailableTimeSlot),
      (∀ sl ∈ slots, slotStartParsed sl ≤ slotEndParsed sl ∧
        (slotEndParsed sl : Int) + 60 * (dur + buffer.before + buffer.after) < 86400) →
      processDay fuel day dur buffer slots = some l →
      ∀ t ∈ l, t.date = day ∧
        ∃ sl ∈ slots, sl.day_of_week = weekdayName day ∧ sl.is_available = true ∧
          slotStartParsed sl ≤ t.start_time ∧ t.end_time ≤ slotEndParsed sl := by
  intro fuel day slots
  induction slots with
  | nil =>
    intro l _ h t ht
    simp only [processDay] at h
    injection h with h
    subst h
    cases ht
  | cons sl rest ih =>
    intro l hwf h t ht
    simp only [processDay] at h
    by_cases hcond : sl.day_of_week = weekdayName day ∧ sl.is_available = true
    · rw [if_pos hcond] at h
      cases hpw : packWindow (slotEndParsed sl) dur buffer.before buffer.after
          (dur + buffer.before + buffer.after) fuel (slotStartParsed sl) with
      | none => rw [hpw] at h; simp at h
      | some ws =>
        cases hpd : processDay fuel day dur buffer rest with
        | none => rw [hpw, hpd] at h; simp at h
        | some tail =>
          rw [hpw, hpd] at h
          simp only [Option.some.injEq] at h
          subst h
          rcases List.mem_append.mp ht with hin | hin
          · rcases List.mem_map.mp hin with ⟨p, hp, rfl⟩
            have hwfs := hwf sl (List.mem_cons_self sl rest)
            have hmem := packWindow_mem hd hb ha rfl hwfs.2 fuel
              (slotStartParsed sl) ws (by exact_mod_cast hwfs.1) hpw p hp
            exact ⟨rfl, sl, List.mem_cons_self sl rest, hcond.1, hcond.2,
              hmem.1, hmem.2.2⟩
          · obtain ⟨hdate, sl', hmem', hrest⟩ :=
              ih tail (fun x hx => hwf x (List.mem_cons_of_mem sl hx)) hpd t hin
            exact ⟨hdate, sl', List.mem_cons_of_mem sl hmem', hrest⟩
    · rw [if_neg hcond] at h
      obtain ⟨hdate, sl', hmem', hrest⟩ :=
        ih l (fun x hx => hwf x (List.mem_cons_of_mem sl hx)) h t ht
      exact ⟨hdate, sl', List.mem_cons_of_mem sl hmem', hrest⟩

/-- Day-loop generator containment: every emitted record's date is one of
the processed days, with the per-day containment facts. -/
theorem processRuleDays_mem {dur : Int} {buffer : BufferTime} {rule : AvailabilityRule}
    (hd : 0 ≤ dur) (hb : 0 ≤ buffer.before) (ha : 0 ≤ buffer.after)
    (hwf : ∀ sl ∈ rule.slots, slotStartParsed sl ≤ slotEndParsed sl ∧
      (slotEndParsed sl : Int) + 60 * (dur + buffer.before + buffer.after) < 86400) :
    ∀ (fuel : Nat) (days : List Int) (l : List AvailableTimeSlot),
      processRuleDays fuel rule dur buffer days = some l →
      ∀ t ∈ l, t.date ∈ days ∧
        ∃ sl ∈ rule.slots, sl.day_of_week = weekdayName t.date ∧
          sl.is_available = true ∧
          slotStartParsed sl ≤ t.start_time ∧ t.end_time ≤ slotEndParsed sl := by
  intro fuel days
  induction days with
  | nil =>
    intro l h t ht
    simp only [processRuleDays, Option.some.injEq] at h
    subst h
    cases ht
  | cons day rest ih =>
    intro l h t ht
    simp only [processRuleDays] at h
    cases hpd : processDay fuel day dur buffer rule.slots with
    | none => rw [hpd] at h; simp at h
    | some a =>
      cases hrest : processRuleDays fuel rule dur buffer rest with
      | none => rw [hpd, hrest] at h; simp at h
      | some b =>
        rw [hpd, hrest] at h
        simp only [Option.some.injEq] at h
        subst h
        rcases List.mem_append.mp ht with hin | hin
        · obtain ⟨hdate, hrestc⟩ := processDay_mem hd hb ha fuel day rule.slots a hwf hpd t hin
          subst hdate
          exact ⟨List.mem_cons_self _ _, hrestc⟩
        · obtain ⟨hdays, hrestc⟩ := ih b hrest t hin
          exact ⟨List.mem_cons_of_mem day hdays, hrestc⟩

/-- `dayRange d e` only contains days between `d` and `e`. -/
theorem mem_dayRange {d e x : Int} (h : x ∈ dayRange d e) : d ≤ x ∧ x ≤ e := by
  unfold dayRange at h
  rcases List.mem_map.mp h with ⟨i, hi, rfl⟩
  rw [List.mem_range] at hi
  omega

/-- **C2 amended**: for nonnegative duration and buffers, and template
windows with `start ≤ end` and `end + total < 24:00` (no packing step
wraps past midnight), every slot emitted by `process_availability_rule`
has a date inside `[range_start, range_end]` and lies within the window of
a matching `is_available` slot template of the emitting rule.  The rule's
own `start_date`/`end_date` scope is *not* re-checked per day (see the
counterexample), so no scope conjunct appears here. -/
theorem C2_amended_containment (fuel : Nat) (rule : AvailabilityRule)
    (ms1 ms2 dur : Int) (buffer : BufferTime) (l : List AvailableTimeSlot)
    (hd : 0 ≤ dur) (hb : 0 ≤ buffer.before) (ha : 0 ≤ buffer.after)
    (hwf : ∀ sl ∈ rule.slots, slotStartParsed sl ≤ slotEndParsed sl ∧
      (slotEndParsed sl : Int) + 60 * (dur + buffer.before + buffer.after) < 86400)
    (h : processAvailabilityRule fuel rule ms1 ms2 dur buffer = some l) :
    ∀ t ∈ l, millisToDay ms1 ≤ t.date ∧ t.date ≤ millisToDay ms2 ∧
      ∃ sl ∈ rule.slots, sl.day_of_week = weekdayName t.date ∧
        sl.is_available = true ∧
        slotStartParsed sl ≤ t.start_time ∧ t.end_time ≤ slotEndParsed sl := by
  intro t ht
  unfold processAvailabilityRule at h
  obtain ⟨hdays, hrest⟩ := processRuleDays_mem hd hb ha hwf fuel _ l h t ht
  obtain ⟨h1, h2⟩ := mem_dayRange hdays
  exact ⟨h1, h2, hrest⟩

/-- Witness for the amended C2 at the C1 input, instantiated at the first
emitted slot 09:00–09:30 of Monday 2024-06-10. -/
theorem C2_amended_containment_witness :
    millisToDay 1717977600000 ≤ (19884 : Int) ∧
    (19884 : Int) ≤ millisToDay 1717977600000 ∧
      ∃ sl ∈ [(⟨"monday", "09:00", "10:00", true⟩ : AvailabilitySlot)],
        sl.day_of_week = weekdayName 19884 ∧ sl.is_available = true ∧
        slotStartParsed sl ≤ 32400 ∧ 34200 ≤ slotEndParsed sl :=
  C2_amended_containment 8
    ⟨1717977600000, some 1717977600000, true, none,
      [⟨"monday", "09:00", "10:00", true⟩]⟩
    1717977600000 1717977600000 30 ⟨0, 0⟩
    [⟨19884, 32400, 34200⟩, ⟨19884, 34200, 36000⟩]
    (by decide) (by decide) (by decide) (by decide) rfl
    ⟨19884, 32400, 34200⟩ (by decide)

/-- **C6 counterexample**: a rule with `end_date = None` and
`is_recurring = false` has, per §4.1, a date scope that covers no day at
all (open-ended scopes require `is_recurring = true`), yet the code's rule
stage passes a proposed Monday slot against it: the rule stage treats a
missing `end_date` as "no upper bound" without consulting
`is_recurring`. -/
theorem C6_counterexample :
    ruleStagePasses
        ⟨[⟨1717372800000, none, false, none,
            [⟨"monday", "09:00", "17:00", true⟩]⟩]⟩
        "2024-06-10" "10:00" "11:00" = true ∧
    parseDate "2024-06-10" = some 19884 ∧
    specScopeCoversDay
      ⟨1717372800000, none, false, none,
        [⟨"monday", "09:00", "17:00", true⟩]⟩ 19884 = false := by
  exact ⟨rfl, rfl, rfl⟩

/-- The slot-template test of the rule stage characterised: some template
in the list matches the weekday, is available, has parseable times, and
contains the window `[sv, ev]`. -/
theorem slotsAny_iff (slots : List AvailabilitySlot) (dow : String) (sv ev : Nat) :
    (slots.any fun slot =>
        (slot.day_of_week == dow && slot.is_available &&
            match parseHM slot.start_time with
            | some t => decide (t ≤ sv)
            | none => false) &&
          match parseHM slot.end_time with
          | some t => decide (ev ≤ t)
          | none => false) = true ↔
      ∃ slot ∈ slots, slot.day_of_week = dow ∧ slot.is_available = true ∧
        (∃ ts, parseHM slot.start_time = some ts ∧ ts ≤ sv) ∧
        (∃ te, parseHM slot.end_time = some te ∧ ev ≤ te) := by
  rw [List.any_eq_true]
  constructor
  · rintro ⟨slot, hmem, hslot⟩
    simp only [Bool.and_eq_true, beq_iff_eq] at hslot
    obtain ⟨⟨⟨hdow, havail⟩, hts⟩, hte⟩ := hslot
    refine ⟨slot, hmem, hdow, havail, ?_, ?_⟩
    · cases hps : parseHM slot.start_time with
      | none => rw [hps] at hts; simp at hts
      | some ts => rw [hps] at hts; simp at hts; exact ⟨ts, rfl, hts⟩
    · cases hpe : parseHM slot.end_time with
      | none => rw [hpe] at hte; simp at hte
      | some te => rw [hpe] at hte; simp at hte; exact ⟨te, rfl, hte⟩
  · rintro ⟨slot, hmem, hdow, havail, ⟨ts, hps, hts⟩, ⟨te, hpe, hte⟩⟩
    refine ⟨slot, hmem, ?_⟩
    simp only [Bool.and_eq_true, beq_iff_eq, hps, hpe]
    exact ⟨⟨⟨hdow, havail⟩, by simpa using hts⟩, by simpa using hte⟩

/-- `is_slot_available_in_rule` characterised: the proposed date (epoch
fallback on parse failure) must be ≥ the rule's start day and ≤ its end
day when `end_date` is present (no upper bound when absent, regardless of
`is_recurring`), and some slot template must match the weekday, be
available, parse, and contain the proposed window — with no buffer
applied. -/
theorem is_slot_available_in_rule_iff (rule : AvailabilityRule)
    (date s e : String) :
    is_slot_available_in_rule rule date s e = true ↔
      (millisToDay rule.start_date ≤ (parseDate date).getD 0 ∧
       (∀ m ∈ rule.end_date, (parseDate date).getD 0 ≤ millisToDay m) ∧
       ∃ slot ∈ rule.slots,
         slot.day_of_week = weekdayName ((parseDate date).getD 0) ∧
         slot.is_available = true ∧
         (∃ ts, parseHM slot.start_time = some ts ∧ ts ≤ (parseHM s).getD 0) ∧
         (∃ te, parseHM slot.end_time = some te ∧ (parseHM e).getD 86399 ≤ te)) := by
  obtain ⟨sd, ed, ir, rp, slots⟩ := rule
  unfold is_slot_available_in_rule
  cases ed with
  | none =>
    simp only [Bool.not_true, Bool.or_false, Option.mem_def, reduceCtorEq,
      false_implies, implies_true, true_and]
    split_ifs with hg
    · rw [decide_eq_true_iff] at hg
      simp only [Bool.false_eq_true, false_iff]
      rintro ⟨h1, -⟩
      omega
    · rw [decide_eq_true_iff] at hg
      rw [slotsAny_iff]
      constructor
      · intro h; exact ⟨by omega, h⟩
      · rintro ⟨-, h⟩; exact h
  | some m =>
    simp only [Option.mem_def, Option.some.injEq]
    split_ifs with hg
    · simp only [Bool.or_eq_true, decide_eq_true_eq, Bool.not_eq_true',
        decide_eq_false_iff_not, not_le] at hg
      simp only [Bool.false_eq_true, false_iff]
      rintro ⟨h1, h2, -⟩
      have := h2 m rfl
      omega
    · simp only [Bool.or_eq_true, decide_eq_true_eq, Bool.not_eq_true',
        decide_eq_false_iff_not, not_le, not_or, not_lt] at hg
      rw [slotsAny_iff]
      constructor
      · intro h
        refine ⟨hg.1, ?_, h⟩
        rintro m' rfl
        omega
      · rintro ⟨-, -, h⟩; exact h

/-- **C6 amended**: the rule stage passes iff some rule *as the code scopes
it* covers the proposed date — `start_day ≤ date`, and `date ≤ end_day`
only when `end_date` is present; a missing `end_date` means no upper bound
regardless of `is_recurring` — and that rule has a slot template with
matching weekday, `is_available = true`, parseable times, and
`slot.start ≤ start ∧ end ≤ slot.end` (raw containment, no buffer
applied, unlike generation). -/
theorem C6_amended_rule_stage (availability : Availability)
    (date s e : String) :
    ruleStagePasses availability date s e = true ↔
      ∃ rule ∈ availability.rules,
        millisToDay rule.start_date ≤ (parseDate date).getD 0 ∧
        (∀ m ∈ rule.end_date, (parseDate date).getD 0 ≤ millisToDay m) ∧
        ∃ slot ∈ rule.slots,
          slot.day_of_week = weekdayName ((parseDate date).getD 0) ∧
          slot.is_available = true ∧
          (∃ ts, parseHM slot.start_time = some ts ∧ ts ≤ (parseHM s).getD 0) ∧
          (∃ te, parseHM slot.end_time = some te ∧ (parseHM e).getD 86399 ≤ te) := by
  unfold ruleStagePasses
  rw [List.any_eq_true]
  constructor
  · rintro ⟨rule, hmem, hrule⟩
    exact ⟨rule, hmem, (is_slot_available_in_rule_iff rule date s e).mp hrule⟩
  · rintro ⟨rule, hmem, hrule⟩
    exact ⟨rule, hmem, (is_slot_available_in_rule_iff rule date s e).mpr hrule⟩

/-- **C7 counterexample**: a slot template whose `start_time` is the
unparseable string `"banana"` does not make the computation fail with a
validation error: the generator silently substitutes `00:00` and emits
slots from midnight. -/
theorem C7_counterexample :
    parseHM "banana" = none ∧
    processAvailabilityRule 8
        ⟨1717977600000, some 1717977600000, true, none,
          [⟨"monday", "banana", "01:00", true⟩]⟩
        1717977600000 1717977600000 30 ⟨0, 0⟩ =
      some [⟨19884, 0, 1800⟩, ⟨19884, 1800, 3600⟩] := by
  exact ⟨rfl, rfl⟩

set_option maxRecDepth 8000 in
/-- **C7 amended**: date strings are validated at rule construction and at
the query boundary, but `HH:MM` time strings are not: a slot template
whose `start_time` fails to parse is silently treated as `00:00`
(`end_time` would fall back to `23:59:59`), and the generator proceeds —
here, any unparseable start over a Monday window ending 01:00 with
`duration = 30` yields exactly the two midnight slots. -/
theorem C7_amended_silent_default (s : String) (hs : parseHM s = none) :
    processDay 8 19884 30 ⟨0, 0⟩ [⟨"monday", s, "01:00", true⟩] =
      some [⟨19884, 0, 1800⟩, ⟨19884, 1800, 3600⟩] := by
  have step : processDay 8 19884 30 ⟨0, 0⟩ [⟨"monday", s, "01:00", true⟩] =
      match packWindow 3600 30 0 0 30 8 ((parseHM s).getD 0),
            (some [] : Option (List AvailableTimeSlot)) with
      | some ws, some tail =>
          some (ws.map (fun p => (⟨19884, p.1, p.2⟩ : AvailableTimeSlot)) ++ tail)
      | _, _ => none := rfl
  rw [step, hs]
  rfl

/-- Witness for the amended C7 at the concrete unparseable time string
`"25:61"` (hour and minute out of range). -/
theorem C7_amended_silent_default_witness :
    parseHM "25:61" = none ∧
    processDay 8 19884 30 ⟨0, 0⟩ [⟨"monday", "25:61", "01:00", true⟩] =
      some [⟨19884, 0, 1800⟩, ⟨19884, 1800, 3600⟩] :=
  ⟨rfl, C7_amended_silent_default "25:61" rfl⟩

/-- The packing loop never exits on the window 23:58–23:59 with
`total = 1` minute: every reachable cursor is a multiple of 60 seconds
below 24:00, and for each of them `cursor + 1min` (wrapping at midnight)
stays `≤ 23:59`, so the guard never fails. -/
theorem packWindow_2358_diverges :
    ∀ fuel c, c % 60 = 0 → c < 86400 →
      packWindow 86340 1 0 0 1 fuel c = none := by
  intro fuel
  induction fuel with
  | zero => intro c _ _; rfl
  | succ n ih =>
    intro c hc hlt
    have e0 : addMin c 0 = c := by unfold addMin; omega
    have hguard : addMin c 1 ≤ 86340 := by unfold addMin; omega
    have h60 : addMin c 1 % 60 = 0 := by unfold addMin; omega
    have hlt1 : addMin c 1 < 86400 := by unfold addMin; omega
    have e1 : addMin (addMin c 1) 0 = addMin c 1 := by unfold addMin; omega
    have hrec := ih (addMin c 1) h60 hlt1
    simp only [packWindow, if_pos hguard, e0, e1, hrec]

/-- **C3**: the boundary claim fails because the code does not terminate on
it.  The window 23:58–23:59 has length exactly
`duration + before + after = 1` minute, so the claim promises exactly one
emitted slot; instead `NaiveTime` addition wraps past midnight, the guard
`cursor + total ≤ slot_end` never becomes false, and the packing loop runs
forever (`none` for every fuel bound). -/
theorem C3_boundary_nonterminating :
    ∀ fuel, processDay fuel 19884 1 ⟨0, 0⟩
        [⟨"monday", "23:58", "23:59", true⟩] = none := by
  intro fuel
  have h := packWindow_2358_diverges fuel 86280 (by decide) (by decide)
  have step : processDay fuel 19884 1 ⟨0, 0⟩ [⟨"monday", "23:58", "23:59", true⟩] =
      match packWindow 86340 1 0 0 1 fuel 86280,
            (some [] : Option (List AvailableTimeSlot)) with
      | some ws, some tail =>
          some (ws.map (fun p => (⟨19884, p.1, p.2⟩ : AvailableTimeSlot)) ++ tail)
      | _, _ => none := rfl
  rw [step, h]

/-- The packing loop never exits on the window 23:00–23:30 with
`total = 30` minutes: reachable cursors are multiples of 1800 seconds
below 24:00, and the wrapped guard value always stays `≤ 23:30`. -/
theorem packWindow_2300_diverges :
    ∀ fuel c, c % 1800 = 0 → c < 86400 →
      packWindow 84600 30 0 0 30 fuel c = none := by
  intro fuel
  induction fuel with
  | zero => intro c _ _; rfl
  | succ n ih =>
    intro c hc hlt
    have e0 : addMin c 0 = c := by unfold addMin; omega
    have hguard : addMin c 30 ≤ 84600 := by unfold addMin; omega
    have h1800 : addMin c 30 % 1800 = 0 := by unfold addMin; omega
    have hlt1 : addMin c 30 < 86400 := by unfold addMin; omega
    have e1 : addMin (addMin c 30) 0 = addMin c 30 := by unfold addMin; omega
    have hrec := ih (addMin c 30) h1800 hlt1
    simp only [packWindow, if_pos hguard, e0, e1, hrec]

/-- **C9**: the per-window packing loop does *not* terminate for every
input with `duration + before + after ≥ 1`.  For the template window
23:00–23:30 with `duration = 30` and zero buffers (total 30 ≥ 1), after
emitting 23:00–23:30 the cursor reaches 23:30, `23:30 + 30min` wraps to
00:00 ≤ 23:30, and the loop cycles through the whole day forever: the
generator returns `none` for every fuel bound on a one-day query. -/
theorem C9_nonterminating :
    ∀ fuel, processAvailabilityRule fuel
        ⟨1717977600000, some 1717977600000, true, none,
          [⟨"monday", "23:00", "23:30", true⟩]⟩
        1717977600000 1717977600000 30 ⟨0, 0⟩ = none := by
  intro fuel
  have h := packWindow_2300_diverges fuel 82800 (by decide) (by decide)
  have hday : processDay fuel 19884 30 ⟨0, 0⟩ [⟨"monday", "23:00", "23:30", true⟩] =
      none := by
    have step : processDay fuel 19884 30 ⟨0, 0⟩ [⟨"monday", "23:00", "23:30", true⟩] =
        match packWindow 84600 30 0 0 30 fuel 82800,
              (some [] : Option (List AvailableTimeSlot)) with
        | some ws, some tail =>
            some (ws.map (fun p => (⟨19884, p.1, p.2⟩ : AvailableTimeSlot)) ++ tail)
        | _, _ => none := rfl
    rw [step, h]
  have step2 : processAvailabilityRule fuel
      ⟨1717977600000, some 1717977600000, true, none,
        [⟨"monday", "23:00", "23:30", true⟩]⟩
      1717977600000 1717977600000 30 ⟨0, 0⟩ =
      match processDay fuel 19884 30 ⟨0, 0⟩ [⟨"monday", "23:00", "23:30", true⟩],
            (some [] : Option (List AvailableTimeSlot)) with
      | some a, some b => some (a ++ b)
      | _, _ => none := rfl
  rw [step2, hday]

/-- **C5**: the conflict checker runs two short-circuiting stages.  If the
working-hours lookup is absent or empty, the result is `false` with the
single conflict "No working hours set for this day", independently of the
availability rules (the rule stage never runs); if the lookup succeeds but
no working window contains the proposed window, the result is `false` with
the single conflict "Time slot is outside working hours", again
independently of the rules; `is_available = true` iff both stages pass; a
passing check reports no conflict and a failing check exactly one. -/
theorem C5_stages (date s e : String) (settings : CalendarSettings)
    (availability : Availability) :
    (settings.working_hours.lookup (dayOfWeekOfDateStr date) = none →
      ∀ avail2 : Availability,
        is_slot_available date s e settings avail2 =
          (false, ["No working hours set for this day"])) ∧
    (∀ whs, settings.working_hours.lookup (dayOfWeekOfDateStr date) = some whs →
      whs = [] →
      ∀ avail2 : Availability,
        is_slot_available date s e settings avail2 =
          (false, ["No working hours set for this day"])) ∧
    (∀ whs, settings.working_hours.lookup (dayOfWeekOfDateStr date) = some whs →
      whs ≠ [] →
      (∀ wh ∈ whs, ¬((parseHM wh.start).getD 0 ≤ (parseHM s).getD 0 ∧
          (parseHM e).getD 86399 ≤ (parseHM wh.end_).getD 86399)) →
      ∀ avail2 : Availability,
        is_slot_available date s e settings avail2 =
          (false, ["Time slot is outside working hours"])) ∧
    ((is_slot_available date s e settings availability).1 = true ↔
      ((∃ whs, settings.working_hours.lookup (dayOfWeekOfDateStr date) = some whs ∧
        whs ≠ [] ∧
        ∃ wh ∈ whs, (parseHM wh.start).getD 0 ≤ (parseHM s).getD 0 ∧
          (parseHM e).getD 86399 ≤ (parseHM wh.end_).getD 86399) ∧
      ruleStagePasses availability date s e = true)) ∧
    ((is_slot_available date s e settings availability).1 = true →
      (is_slot_available date s e settings availability).2 = []) ∧
    ((is_slot_available date s e settings availability).1 = false →
      (is_slot_available date s e settings availability).2.length = 1) := by
  have hchar : is_slot_available date s e settings availability = (true, []) ∨
      ∃ msg, is_slot_available date s e settings availability = (false, [msg]) := by
    cases hlk : settings.working_hours.lookup (dayOfWeekOfDateStr date) with
    | none =>
      right
      exact ⟨"No working hours set for this day", by simp only [is_slot_available, hlk]⟩
    | some whs =>
      simp only [is_slot_available, hlk]
      split_ifs with h1 h2 h3
      · right; exact ⟨_, rfl⟩
      · right; exact ⟨_, rfl⟩
      · left; rfl
      · right; exact ⟨_, rfl⟩
  refine ⟨?_, ?_, ?_, ?_, ?_, ?_⟩
  · intro h avail2
    simp only [is_slot_available, h]
  · intro whs h he avail2
    subst he
    simp only [is_slot_available, h, List.isEmpty_nil, if_true]
  · intro whs h hne hout avail2
    have hempty : whs.isEmpty = false := by
      cases whs with
      | nil => exact absurd rfl hne
      | cons a l => rfl
    have hany : (whs.any fun wh =>
        decide ((parseHM wh.start).getD 0 ≤ (parseHM s).getD 0) &&
        decide ((parseHM e).getD 86399 ≤ (parseHM wh.end_).getD 86399)) = false := by
      rw [List.any_eq_false]
      intro wh hwh
      have := hout wh hwh
      simp only [Bool.and_eq_true, decide_eq_true_eq]
      tauto
    simp only [is_slot_available, h, hempty, Bool.false_eq_true, if_false, hany,
      Bool.not_false, if_true]
  · cases hlk : settings.working_hours.lookup (dayOfWeekOfDateStr date) with
    | none =>
      simp only [is_slot_available, hlk]
      constructor
      · intro hh; exact absurd hh (by simp)
      · rintro ⟨⟨whs, hw, -⟩, -⟩; cases hw
    | some whs =>
      cases whs with
      | nil =>
        simp only [is_slot_available, hlk, List.isEmpty_nil, if_true]
        constructor
        · intro hh; exact absurd hh (by simp)
        · rintro ⟨⟨whs2, hw, hne, -⟩, -⟩
          injection hw with hw
          exact absurd hw.symm hne
      | cons w ws =>
        simp only [is_slot_available, hlk, List.isEmpty_cons, Bool.false_eq_true,
          if_false]
        by_cases hany : ((w :: ws).any fun wh =>
            decide ((parseHM wh.start).getD 0 ≤ (parseHM s).getD 0) &&
            decide ((parseHM e).getD 86399 ≤ (parseHM wh.end_).getD 86399)) = true
        · simp only [hany, Bool.not_true, Bool.false_eq_true, if_false]
          by_cases hrp : ruleStagePasses availability date s e = true
          · rw [if_pos hrp]
            constructor
            · intro _
              refine ⟨⟨w :: ws, rfl, List.cons_ne_nil w ws, ?_⟩, hrp⟩
              rw [List.any_eq_true] at hany
              obtain ⟨wh, hwh, hb⟩ := hany
              simp only [Bool.and_eq_true, decide_eq_true_eq] at hb
              exact ⟨wh, hwh, hb.1, hb.2⟩
            · intro _; rfl
          · rw [if_neg hrp]
            constructor
            · intro hh; exact absurd hh (by simp)
            · rintro ⟨-, hr⟩; exact absurd hr hrp
        · rw [Bool.not_eq_true] at hany
          simp only [hany, Bool.not_false, if_true]
          constructor
          · intro hh; exact absurd hh (by simp)
          · rintro ⟨⟨whs2, hw2, -, wh, hwh, hc1, hc2⟩, -⟩
            injection hw2 with hw2
            subst hw2
            have := List.any_eq_false.mp hany wh hwh
            simp only [Bool.and_eq_true, decide_eq_true_eq] at this
            exact (this ⟨hc1, hc2⟩).elim
  · rcases hchar with h | ⟨msg, h⟩
    · rw [h]; intro _; rfl
    · rw [h]; intro hh; exact absurd hh (by simp)
  · rcases hchar with h | ⟨msg, h⟩
    · rw [h]; intro hh; exact absurd hh (by simp)
    · rw [h]; intro _; rfl

/-- Witness for C5 at the spec's Example 4: Monday 2024-06-10 08:00–08:30
against working hours monday 09:00–17:00 (working-hours stage fails, rule
stage is never consulted). -/
theorem C5_stages_witness :
    is_slot_available "2024-06-10" "08:00" "08:30"
        ⟨[("monday", [⟨"09:00", "17:00"⟩])], ⟨0, 0⟩⟩ ⟨[]⟩ =
      (false, ["Time slot is outside working hours"]) :=
  (C5_stages "2024-06-10" "08:00" "08:30"
      ⟨[("monday", [⟨"09:00", "17:00"⟩])], ⟨0, 0⟩⟩ ⟨[]⟩).2.2.1
    [⟨"09:00", "17:00"⟩] (by decide) (by decide) (by decide) ⟨[]⟩

end Calendly
